import Mathlib

/-!
# PrimeLISP (lisp.py): a verified shallow embedding

This file embeds the reader, printer, environment store and the mutually
recursive evaluator/applier of the PrimeLISP interpreter (`lisp.py`) and
proves properties of that embedding.

Modelling decisions, chosen to mirror the host semantics:

* Host numbers are doubles; every number any theorem below touches is an
  exact small integer on which double arithmetic is exact, so numbers are
  modelled as exact rationals (`Rat`).  The transcendental primitives
  (`cos`, `sin`, `tan`) and non-finite or precision-losing literals are
  host-float behaviour that is not modelled: those operations answer
  `none` here.
* Host bindings are two-element mutable lists shared between environment
  values; `update_global` mutates a binding in place.  The embedding makes
  that heap explicit: a binding lives at an address (`Nat`) in a growing
  heap, and an environment is a list of addresses.  The process-wide
  variable `Alist` is the `root` field of the threaded state.
* Host exceptions (IndexError, TypeError, NameError, ZeroDivisionError,
  the `scream` fall-through) and fuel exhaustion of the fuel-indexed
  evaluator are both rendered as `none`.
-/

namespace PrimeLisp

/-- S-expressions: numbers (host doubles, modelled as exact rationals),
symbols (host strings) and lists.  The empty list doubles as nil/false. -/
inductive Sexpr where
  | num : Rat → Sexpr
  | sym : String → Sexpr
  | list : List Sexpr → Sexpr

mutual

/-- Structural equality of S-expressions (host `==`). -/
def Sexpr.beq : Sexpr → Sexpr → Bool
  | Sexpr.num a, Sexpr.num b => a == b
  | Sexpr.sym a, Sexpr.sym b => a == b
  | Sexpr.list a, Sexpr.list b => Sexpr.beqList a b
  | _, _ => false
termination_by structural a => a

/-- Structural equality, elementwise on lists. -/
def Sexpr.beqList : List Sexpr → List Sexpr → Bool
  | [], [] => true
  | a :: as, b :: bs => Sexpr.beq a b && Sexpr.beqList as bs
  | _, _ => false
termination_by structural a => a

end

mutual

def Sexpr.eq_of_beq : ∀ {a b : Sexpr}, Sexpr.beq a b = true → a = b
  | Sexpr.num _, Sexpr.num _, h => by
      simpa [Sexpr.beq] using congrArg Sexpr.num (by exact_mod_cast of_decide_eq_true (by simpa [Sexpr.beq, BEq.beq] using h))
  | Sexpr.sym _, Sexpr.sym _, h => by
      simp only [Sexpr.beq] at h
      exact congrArg Sexpr.sym (by simpa using h)
  | Sexpr.list _, Sexpr.list _, h => by
      simp only [Sexpr.beq] at h
      exact congrArg Sexpr.list (Sexpr.eqList_of_beqList h)

def Sexpr.eqList_of_beqList :
    ∀ {a b : List Sexpr}, Sexpr.beqList a b = true → a = b
  | [], [], _ => rfl
  | a :: as, b :: bs, h => by
      simp only [Sexpr.beqList, Bool.and_eq_true] at h
      exact congrArg₂ (· :: ·) (Sexpr.eq_of_beq h.1) (Sexpr.eqList_of_beqList h.2)

end

mutual

def Sexpr.beq_refl : ∀ (a : Sexpr), Sexpr.beq a a = true
  | Sexpr.num _ => by simp [Sexpr.beq]
  | Sexpr.sym _ => by simp [Sexpr.beq]
  | Sexpr.list l => by simp only [Sexpr.beq]; exact Sexpr.beqList_refl l

def Sexpr.beqList_refl : ∀ (l : List Sexpr), Sexpr.beqList l l = true
  | [] => rfl
  | a :: as => by
      simp only [Sexpr.beqList, Bool.and_eq_true]
      exact ⟨Sexpr.beq_refl a, Sexpr.beqList_refl as⟩

end

instance : DecidableEq Sexpr := fun a b =>
  decidable_of_iff (Sexpr.beq a b = true)
    ⟨Sexpr.eq_of_beq, fun h => h ▸ Sexpr.beq_refl a⟩

/-- A binding is the host's two-element list `[name, value]`.  The name is
an arbitrary S-expression: `set` can install non-symbol names. -/
abbrev Binding := Sexpr × Sexpr

/-- The heap of binding cells; an address is an index into it.  The heap
only ever grows, so every allocated address stays valid. -/
abbrev Heap := List Binding

/-- An environment (host "alist") is a list of references to binding
cells, newest binding at the front. -/
abbrev Env := List Nat

/-- The threaded interpreter state: the binding heap and the process-wide
root environment `Alist`. -/
structure St where
  heap : Heap
  root : Env
deriving DecidableEq

/-- Read the binding cell at an address.  All addresses reachable during
evaluation are in range; the default is never consulted there. -/
def deref (h : Heap) (r : Nat) : Binding :=
  h.getD r (Sexpr.list [], Sexpr.list [])

/-- `resolve(symbol, env)`: first binding from the front whose name equals
the symbol; the empty list when none matches (never an error). -/
def resolve (symbol : Sexpr) (env : Env) (h : Heap) : Sexpr :=
  match env with
  | [] => Sexpr.list []
  | r :: rs =>
      if (deref h r).1 = symbol then (deref h r).2 else resolve symbol rs h

/-- `bind(names, values, alist)` on a host list of names: prepend a fresh
cell per name/value pair, first name ending nearest the front.  `none`
when the values run out first (host IndexError). -/
def bindList (names values : List Sexpr) (alist : Env) (st : St) :
    Option (Env × St) :=
  match names, values with
  | [], _ => some (alist, st)
  | _ :: _, [] => none
  | n :: ns, v :: vs =>
      (bindList ns vs alist ⟨st.heap ++ [(n, v)], st.root⟩).map
        (fun p => (st.heap.length :: p.1, p.2))

/-- `bind` as called by the interpreter: the names operand is itself an
S-expression.  A host string is iterated character by character; the
falsy `0.0` yields the unchanged alist; any other number is unsubscriptable
(host TypeError). -/
def bind (names : Sexpr) (values : List Sexpr) (alist : Env) (st : St) :
    Option (Env × St) :=
  match names with
  | Sexpr.list ns => bindList ns values alist st
  | Sexpr.sym s =>
      bindList (s.data.map (fun c => Sexpr.sym c.toString)) values alist st
  | Sexpr.num q => if q = 0 then some (alist, st) else none

/-- `update_global(name, value, alist)`: scan the environment from the
back (oldest) toward the front; at the first match overwrite that cell's
value in place and keep the environment; otherwise allocate a fresh cell
and prepend its address. -/
def update_global (name value : Sexpr) (alist : Env) (h : Heap) :
    Env × Heap :=
  match alist.reverse.find? (fun r => decide ((deref h r).1 = name)) with
  | some r => (alist, h.set r ((deref h r).1, value))
  | none => (h.length :: alist, h ++ [(name, value)])

/-- `[[],'t'][b]`: the interpreter's boolean results. -/
def pyBool (b : Bool) : Sexpr :=
  if b then Sexpr.sym ("t") else Sexpr.list []

/-- Host truthiness (`if`/`elif` on a value): the empty list, the number
zero and the empty symbol are falsy, everything else is truthy. -/
def truthy : Sexpr → Bool
  | Sexpr.list [] => false
  | Sexpr.list (_ :: _) => true
  | Sexpr.num q => decide (q ≠ 0)
  | Sexpr.sym s => decide (s ≠ (""))

/-- Exact rational addition, written through `mkRat` so that the kernel
can evaluate it on closed programs; agrees with host double addition on
the exactly representable inputs this development exercises. -/
def ratAdd (a b : Rat) : Rat :=
  mkRat (a.num * b.den + b.num * a.den) (a.den * b.den)

/-- Exact rational subtraction through `mkRat`. -/
def ratSub (a b : Rat) : Rat :=
  mkRat (a.num * b.den - b.num * a.den) (a.den * b.den)

/-- Exact rational negation through `mkRat`. -/
def ratNeg (a : Rat) : Rat := mkRat (-a.num) a.den

/-- Exact rational multiplication through `mkRat`. -/
def ratMul (a b : Rat) : Rat := mkRat (a.num * b.num) (a.den * b.den)

/-- Exact rational division through `mkRat`; only applied to nonzero
divisors. -/
def ratDiv (a b : Rat) : Rat :=
  if b.num < 0 then mkRat (-(a.num * b.den)) (a.den * b.num.natAbs)
  else mkRat (a.num * b.den) (a.den * b.num.natAbs)

/-- `sum(args)`: every argument must be a number; the empty sum is 0. -/
def sumNums : List Sexpr → Option Rat
  | [] => some 0
  | Sexpr.num q :: rest => (sumNums rest).map (fun a => ratAdd q a)
  | _ => none

/-- `_diff(args)`: unary negation, else first minus the sum of the rest;
no arguments is a host IndexError. -/
def diffNums : List Sexpr → Option Rat
  | [] => none
  | [Sexpr.num q] => some (ratNeg q)
  | Sexpr.num q :: rest => (sumNums rest).map (fun a => ratSub q a)
  | _ => none

/-- The running product of `_prod(args)`, starting from 1.0. -/
def prodAux (acc : Rat) : List Sexpr → Option Rat
  | [] => some acc
  | Sexpr.num q :: rest => prodAux (ratMul acc q) rest
  | _ => none

/-- `_prod(args)`. -/
def prodNums (args : List Sexpr) : Option Rat := prodAux 1 args

/-- The running quotient of `_div(args)`; a zero divisor is a host
ZeroDivisionError. -/
def divAux (acc : Rat) : List Sexpr → Option Rat
  | [] => some acc
  | Sexpr.num q :: rest => if q = 0 then none else divAux (ratDiv acc q) rest
  | _ => none

/-- `_div(args)`: unary reciprocal, else left-fold division. -/
def divNums : List Sexpr → Option Rat
  | [Sexpr.num q] => if q = 0 then none else some (ratDiv 1 q)
  | Sexpr.num q :: rest => divAux q rest
  | _ => none

/-- The ordering primitives compare two numbers or two symbols
(host strings compare lexicographically by code point); comparisons of
other shapes are host behaviour that is not modelled. -/
def compareVals (fq : Rat → Rat → Bool) (fs : String → String → Bool) :
    Sexpr → Sexpr → Option Sexpr
  | Sexpr.num a, Sexpr.num b => some (pyBool (fq a b))
  | Sexpr.sym a, Sexpr.sym b => some (pyBool (fs a b))
  | _, _ => none

/-- `tmp += l` over the evaluated arguments of `append`: a list extends
with its elements, a host string extends with its characters one by one,
and a number is not iterable (host TypeError). -/
def appendAll : List Sexpr → Option (List Sexpr)
  | [] => some []
  | Sexpr.list l :: rest => (appendAll rest).map (fun t => l ++ t)
  | Sexpr.sym s :: rest =>
      (appendAll rest).map
        (fun t => s.data.map (fun c => Sexpr.sym c.toString) ++ t)
  | Sexpr.num _ :: _ => none

/-- The value of the introspection symbol `alist`: the root environment's
bindings read out of the heap (the host returns the live list object). -/
def reifyAlist (st : St) : Sexpr :=
  Sexpr.list (st.root.map
    (fun r => Sexpr.list [(deref st.heap r).1, (deref st.heap r).2]))

mutual

/-- `eval(exp, alist)`, fuel-indexed.  `none` is fuel exhaustion or a host
error.  The state carries the binding heap and the global `Alist`. -/
def eval : Nat → Sexpr → Env → St → Option (Sexpr × St)
  | 0, _, _, _ => none
  | f + 1, exp, alist, st =>
    if exp = Sexpr.sym ("t") then some (Sexpr.sym ("t"), st)
    else if exp = Sexpr.sym ("nil") then some (Sexpr.list [], st)
    else if exp = Sexpr.list [] then some (Sexpr.list [], st)
    else if exp = Sexpr.sym ("alist") then some (reifyAlist st, st)
    else
      match exp with
      | Sexpr.num q => some (Sexpr.num q, st)
      | Sexpr.sym s => some (resolve (Sexpr.sym s) alist st.heap, st)
      | Sexpr.list [] => none
      | Sexpr.list (head :: rest) =>
        if head = Sexpr.sym ("quote") then
          match rest with
          | x :: _ => some (x, st)
          | [] => none
        else if head = Sexpr.sym ("list") then
          (evlis f rest alist st).map (fun p => (Sexpr.list p.1, p.2))
        else if head = Sexpr.sym ("append") then
          (evlis f rest alist st).bind
            (fun p => (appendAll p.1).map (fun l => (Sexpr.list l, p.2)))
        else if head = Sexpr.sym ("setq") then
          setq f rest alist (Sexpr.list []) st
        else if head = Sexpr.sym ("set") then
          (evlis f rest alist st).bind
            (fun p => setq f p.1 alist (Sexpr.list []) p.2)
        else if head = Sexpr.sym ("def") then
          match rest with
          | name :: value :: _ =>
              (bind (Sexpr.list [name]) [value] alist st).map
                (fun p => (name, ⟨p.2.heap, p.1⟩))
          | _ => none
        else if head = Sexpr.sym ("defun") then
          match rest with
          | name :: defrest =>
              (bind (Sexpr.list [name])
                  [Sexpr.list (Sexpr.sym ("lambda") :: defrest)] alist st).map
                (fun p => (name, ⟨p.2.heap, p.1⟩))
          | [] => none
        else if head = Sexpr.sym ("cond") then
          evcon f rest alist st
        else
          (evlis f rest alist st).bind
            (fun p => apply f head p.1 alist p.2)

/-- `apply(fn, args, alist)`, fuel-indexed: primitive dispatch, fallback
resolution of a non-primitive symbol, and lambda application. -/
def apply : Nat → Sexpr → List Sexpr → Env → St → Option (Sexpr × St)
  | 0, _, _, _, _ => none
  | f + 1, fn, args, alist, st =>
    match fn with
    | Sexpr.sym s =>
      if s = ("atom") then
        match args with
        | a :: _ =>
            some (pyBool (match a with
              | Sexpr.list _ => false
              | _ => true), st)
        | [] => none
      else if s = ("car") then
        match args with
        | Sexpr.list (x :: _) :: _ => some (x, st)
        | Sexpr.sym w :: _ =>
            match w.data with
            | c :: _ => some (Sexpr.sym c.toString, st)
            | [] => none
        | _ => none
      else if s = ("cdr") then
        match args with
        | Sexpr.list l :: _ => some (Sexpr.list l.tail, st)
        | Sexpr.sym w :: _ => some (Sexpr.sym (w.drop 1), st)
        | _ => none
      else if s = ("+") then
        (sumNums args).map (fun q => (Sexpr.num q, st))
      else if s = ("-") then
        (diffNums args).map (fun q => (Sexpr.num q, st))
      else if s = ("*") then
        (prodNums args).map (fun q => (Sexpr.num q, st))
      else if s = ("/") then
        (divNums args).map (fun q => (Sexpr.num q, st))
      else if s = ("eq") then
        match args with
        | a :: b :: _ => some (pyBool (decide (a = b)), st)
        | _ => none
      else if s = ("<") then
        match args with
        | a :: b :: _ =>
            (compareVals (fun x y => decide (x < y))
              (fun x y => decide (x < y)) a b).map (fun r => (r, st))
        | _ => none
      else if s = ("<=") then
        match args with
        | a :: b :: _ =>
            (compareVals (fun x y => decide (x ≤ y))
              (fun x y => decide (x ≤ y)) a b).map (fun r => (r, st))
        | _ => none
      else if s = (">") then
        match args with
        | a :: b :: _ =>
            (compareVals (fun x y => decide (y < x))
              (fun x y => decide (y < x)) a b).map (fun r => (r, st))
        | _ => none
      else if s = (">=") then
        match args with
        | a :: b :: _ =>
            (compareVals (fun x y => decide (y ≤ x))
              (fun x y => decide (y ≤ x)) a b).map (fun r => (r, st))
        | _ => none
      else if s = ("not") then
        match args with
        | a :: _ => some (pyBool (decide (a = Sexpr.list [])), st)
        | [] => none
      else if s = ("eval") then
        match args with
        | a :: _ => eval f a alist st
        | [] => none
      else if s = ("print") then
        match args.getLast? with
        | some a => some (a, st)
        | none => none
      else if s = ("cons") then
        match args with
        | a :: Sexpr.list l :: _ => some (Sexpr.list (a :: l), st)
        | a :: b :: _ => some (Sexpr.list [a, b], st)
        | _ => none
      else if s = ("cos") ∨ s = ("sin") ∨ s = ("tan") then
        none
      else
        (eval f (Sexpr.sym s) alist st).bind
          (fun p => apply f p.1 args alist p.2)
    | Sexpr.list (h :: lrest) =>
        if h = Sexpr.sym ("lambda") then
          match lrest with
          | ps :: body =>
              (bind ps args alist st).bind
                (fun p => evalBody f body p.1 p.2)
          | [] => none
        else none
    | Sexpr.list [] => none
    | Sexpr.num _ => none

/-- The lambda body loop `for i in range(2, len(fn))`: every body
expression is evaluated in the same extended environment, the state
threads through, and the last value is returned.  An empty body leaves
the host's `tmp` unbound (NameError). -/
def evalBody : Nat → List Sexpr → Env → St → Option (Sexpr × St)
  | 0, _, _, _ => none
  | _ + 1, [], _, _ => none
  | f + 1, [e], alist, st => eval f e alist st
  | f + 1, e :: e2 :: es, alist, st =>
      (eval f e alist st).bind (fun p => evalBody f (e2 :: es) alist p.2)

/-- `_setq(exp, alist, ret)`: pairs processed two at a time; each value
is evaluated in the environment as updated so far, the name is
update-or-inserted, and the updated environment becomes both the lookup
basis for later pairs and the new root (`alist = Alist = ...`). -/
def setq : Nat → List Sexpr → Env → Sexpr → St → Option (Sexpr × St)
  | 0, _, _, _, _ => none
  | _ + 1, [], _, ret, st => some (ret, st)
  | _ + 1, [_], _, ret, st => some (ret, st)
  | f + 1, n :: v :: rest, alist, _, st =>
      (eval f v alist st).bind (fun p =>
        let u := update_global n p.1 alist p.2.heap
        setq f rest u.1 p.1 ⟨u.2, u.1⟩)

/-- `evcon(c, alist)`: clause predicates in listed order; the first
truthy predicate selects its consequent; no match yields the empty
list.  A clause that is not a list indexes host-specifically and is not
modelled. -/
def evcon : Nat → List Sexpr → Env → St → Option (Sexpr × St)
  | 0, _, _, _ => none
  | _ + 1, [], _, st => some (Sexpr.list [], st)
  | f + 1, c :: cs, alist, st =>
    match c with
    | Sexpr.list (p :: crest) =>
        (eval f p alist st).bind (fun pv =>
          if truthy pv.1 then
            match crest with
            | conseq :: _ => eval f conseq alist pv.2
            | [] => none
          else evcon f cs alist pv.2)
    | _ => none

/-- `evlis(list, alist)`: evaluate every element left to right, threading
the state, and collect the values. -/
def evlis : Nat → List Sexpr → Env → St → Option (List Sexpr × St)
  | 0, _, _, _ => none
  | _ + 1, [], _, st => some ([], st)
  | f + 1, e :: es, alist, st =>
      (eval f e alist st).bind (fun p =>
        (evlis f es alist p.2).map (fun q => (p.1 :: q.1, q.2)))

end

/-- Shorthand for building symbol expressions in concrete programs. -/
def sx (s : String) : Sexpr := Sexpr.sym s

/-- Shorthand for building list expressions in concrete programs. -/
def lx (l : List Sexpr) : Sexpr := Sexpr.list l

/-- Shorthand for building number expressions in concrete programs. -/
def nx (q : Rat) : Sexpr := Sexpr.num q

/-- The initial state: empty heap, empty root environment. -/
def st0 : St := ⟨[], []⟩

/-- The main read-eval loop on a fixed program: each expression is
evaluated against the current root environment and the state threads on;
the last result is returned. -/
def runMain (fuel : Nat) : List Sexpr → St → Option (Sexpr × St)
  | [], _ => none
  | [e], st => eval fuel e st.root st
  | e :: e2 :: es, st =>
      (eval fuel e st.root st).bind (fun p => runMain fuel (e2 :: es) p.2)

/-- `(defun fact (x) (cond ((eq x 0) 1) (t (* x (fact (- x 1))))))`,
the bootstrap factorial definition. -/
def factDefun : Sexpr :=
  lx [sx ("defun"), sx ("fact"), lx [sx ("x")],
    lx [sx ("cond"),
      lx [lx [sx ("eq"), sx ("x"), nx 0], nx 1],
      lx [sx ("t"),
        lx [sx ("*"), sx ("x"),
          lx [sx ("fact"), lx [sx ("-"), sx ("x"), nx 1]]]]]]

/-! ## The reader and the printer -/

/-- The decimal digit characters, by value. -/
def digitChar (d : Nat) : Char :=
  match d with
  | 0 => '0' | 1 => '1' | 2 => '2' | 3 => '3' | 4 => '4'
  | 5 => '5' | 6 => '6' | 7 => '7' | 8 => '8' | _ => '9'

/-- Decimal digits of a natural number, most significant first; the fuel
bounds the number of digits. -/
def natDigits : Nat → Nat → List Nat
  | 0, _ => []
  | f + 1, n =>
      if n < 10 then [n]
      else natDigits f (n / 10) ++ [n % 10]

/-- Decimal rendering of a natural number (host `str`). -/
def natStr (n : Nat) : List Char := (natDigits (n + 1) n).map digitChar

/-- Decimal rendering of an integer, with a leading minus sign when
negative. -/
def intStr (i : Int) : List Char :=
  if i < 0 then '-' :: natStr i.natAbs else natStr i.natAbs

/-- The smallest exponent `k ≤ den` with `den ∣ 10 ^ k`, when one
exists (i.e. when `den` factors into twos and fives). -/
def pow10ExpAux : Nat → Nat → Nat → Option Nat
  | 0, _, _ => none
  | fuel + 1, k, den =>
      if den ∣ 10 ^ k then some k else pow10ExpAux fuel (k + 1) den

/-- The smallest `k` with `den ∣ 10 ^ k`, if any. -/
def pow10Exp (den : Nat) : Option Nat := pow10ExpAux (den + 1) 0 den

/-- Left-pad a digit string with zeros to the given length. -/
def padZeros (k : Nat) (ds : List Char) : List Char :=
  List.replicate (k - ds.length) '0' ++ ds

/-- Host `str` on a double, on the values this model can produce
exactly: an integral value prints as `n.0`; a finite decimal prints its
digits; the fall-back for non-decimal rationals stands in for the host's
approximate shortest-repr output, which is not modelled. -/
def numToStr (q : Rat) : List Char :=
  if q.den = 1 then intStr q.num ++ ['.', '0']
  else
    match pow10Exp q.den with
    | some k =>
        let m := q.num.natAbs * 10 ^ k / q.den
        let sign : List Char := if q.num < 0 then ['-'] else []
        sign ++ natStr (m / 10 ^ k) ++ '.' :: padZeros k (natStr (m % 10 ^ k))
    | none => intStr q.num ++ '/' :: natStr q.den

/-- `' '.join(parts)`: join with single spaces. -/
def joinSpace : List String → String
  | [] => ("")
  | [x] => x
  | x :: y :: xs => x ++ (" ") ++ joinSpace (y :: xs)

mutual

/-- `putSexp(s)`: render an S-expression; a list whose first element is
the symbol `quote` renders as `'X` (the host raises IndexError when that
list has no second element; that dead branch renders as a lone tick). -/
def putSexp : Sexpr → String
  | Sexpr.num q => String.mk (numToStr q)
  | Sexpr.sym s => s
  | Sexpr.list [] => ("()")
  | Sexpr.list (x :: rest) =>
      if x = Sexpr.sym ("quote") then
        match rest with
        | y :: _ => ("'") ++ putSexp y
        | [] => ("'")
      else
        ("(") ++ joinSpace (putSexpList (x :: rest)) ++ (")")
termination_by structural s => s

/-- `map(putSexp, s)`, elementwise. -/
def putSexpList : List Sexpr → List String
  | [] => []
  | x :: xs => putSexp x :: putSexpList xs
termination_by structural l => l

end

/-- Host whitespace test `nextChar() <= ' '`: code point at most 32. -/
def isWhite (c : Char) : Bool := decide (c.toNat ≤ 32)

/-- A parenthesis character. -/
def isParen (c : Char) : Bool := c = ('(') || c = (')')

/-- The apostrophe character. -/
def quoteChar : Char := ("'").data.headD (' ')

/-- The digit value of an ASCII digit character. -/
def digitVal (c : Char) : Option Nat :=
  if 48 ≤ c.toNat ∧ c.toNat ≤ 57 then some (c.toNat - 48) else none

/-- Split off the longest leading run of digits. -/
def readDigits : List Char → List Nat × List Char
  | [] => ([], [])
  | c :: rest =>
      match digitVal c with
      | some d => ((readDigits rest).1.cons d, (readDigits rest).2)
      | none => ([], c :: rest)

/-- The value of a most-significant-first digit list. -/
def digitsVal (ds : List Nat) : Nat := ds.foldl (fun a d => 10 * a + d) 0

/-- The optional sign at the front of a float literal. -/
def parseSign : List Char → Int × List Char
  | [] => (1, [])
  | c :: rest =>
      if c = ('-') then (-1, rest)
      else if c = ('+') then (1, rest) else (1, c :: rest)

/-- The rest of a float literal after the integer-part digits: either
the end of the token, or a point followed by fraction digits. -/
def parseAfterDigits (sgn : Int) (d1 : List Nat) :
    List Char → Option Rat
  | [] => if d1 = [] then none else some (mkRat (sgn * digitsVal d1) 1)
  | c :: rest2 =>
      if c = ('.') then
        let d2 := readDigits rest2
        if d2.2 = [] ∧ (d1 ≠ [] ∨ d2.1 ≠ []) then
          some (mkRat
            (sgn * (digitsVal d1 * 10 ^ d2.1.length + digitsVal d2.1))
            (10 ^ d2.1.length))
        else none
      else none

/-- Host `float(a)` on a token, restricted to the finite decimal literals
`[+-]?digits[.digits]` / `[+-]?.digits`; exponent forms, underscore
grouping and non-finite spellings are host behaviour that is not
modelled (such tokens stay symbols here). -/
def parseFloat (cs : List Char) : Option Rat :=
  let sp := parseSign cs
  let d1 := readDigits sp.2
  parseAfterDigits sp.1 d1.1 d1.2

/-- Tokens of the reader: the three special characters, numbers and
symbols. -/
inductive Tok where
  | lpar : Tok
  | rpar : Tok
  | quo : Tok
  | num : Rat → Tok
  | sym : String → Tok

/-- The whitespace-skipping loop of `getToken`; `none` when the buffer
runs out (the host would block asking for another input line). -/
def skipWhite : List Char → Option (List Char)
  | [] => none
  | c :: rest => if isWhite c then skipWhite rest else some (c :: rest)

/-- The accumulation loop of `getToken`: gather characters until
whitespace or a parenthesis; `none` when the buffer runs out mid-token
(the host would block asking for more input). -/
def readRest : List Char → Option (List Char × List Char)
  | [] => none
  | c :: rest =>
      if isWhite c || isParen c then some ([], c :: rest)
      else (readRest rest).map (fun p => (c :: p.1, p.2))

/-- `getToken()`: skip whitespace; `(`, `)` and the tick are tokens by
themselves; otherwise accumulate and try to read the text as a number,
falling back to a symbol. -/
def getToken (cs : List Char) : Option (Tok × List Char) :=
  (skipWhite cs).bind (fun cs1 =>
    match cs1 with
    | [] => none
    | c :: rest =>
      if c = ('(') then some (Tok.lpar, rest)
      else if c = (')') then some (Tok.rpar, rest)
      else if c = quoteChar then some (Tok.quo, rest)
      else
        (readRest rest).map (fun p =>
          match parseFloat (c :: p.1) with
          | some q => (Tok.num q, p.2)
          | none => (Tok.sym (String.mk (c :: p.1)), p.2)))

mutual

/-- `getSexp()`: one S-expression off the input.  A tick wraps the next
expression in `quote`; `(` opens a list; a bare `)` token is returned as
the one-character symbol the host returns, which the list loop treats as
end-of-list.  The fuel bounds recursion depth and list length; the host
recurses unboundedly. -/
def getSexp : Nat → List Char → Option (Sexpr × List Char)
  | 0, _ => none
  | f + 1, cs =>
    (getToken cs).bind (fun t =>
      match t.1 with
      | Tok.quo =>
          (getSexp f t.2).map
            (fun p => (Sexpr.list [Sexpr.sym ("quote"), p.1], p.2))
      | Tok.lpar => getList f t.2 []
      | Tok.rpar => some (Sexpr.sym (")"), t.2)
      | Tok.num q => some (Sexpr.num q, t.2)
      | Tok.sym s => some (Sexpr.sym s, t.2))

/-- The `while 1` list loop of `getSexp`, with its accumulator. -/
def getList : Nat → List Char → List Sexpr → Option (Sexpr × List Char)
  | 0, _, _ => none
  | f + 1, cs, acc =>
    (getSexp f cs).bind (fun p =>
      if p.1 = Sexpr.sym (")") then some (Sexpr.list acc.reverse, p.2)
      else getList f p.2 (p.1 :: acc))

end

/-- The truthiness criterion of claim C7 read literally: a value counts
as truthy iff it is a non-empty list.  Modelled from the claim's words
only, to compare against the interpreter's behaviour. -/
def claimTruthy : Sexpr → Bool
  | Sexpr.list (_ :: _) => true
  | _ => false

/-- `evcon` as claim C7 describes it: identical clause processing, but
with the claim's non-empty-list truthiness test.  Modelled from the
claim's words only, to compare against the interpreter's `evcon`. -/
def evconClaim : Nat → List Sexpr → Env → St → Option (Sexpr × St)
  | 0, _, _, _ => none
  | _ + 1, [], _, st => some (Sexpr.list [], st)
  | f + 1, c :: cs, alist, st =>
    match c with
    | Sexpr.list (p :: crest) =>
        (eval f p alist st).bind (fun pv =>
          if claimTruthy pv.1 then
            match crest with
            | conseq :: _ => eval f conseq alist pv.2
            | [] => none
          else evconClaim f cs alist pv.2)
    | _ => none

/-! ## Canonical literal texts, for the reader/printer round trip -/

/-- A remainder on which a freshly read atom token ends: it must start
with whitespace or a parenthesis (at end-of-buffer the host tokenizer
would instead block asking for another input line). -/
def tokenEnd : List Char → Bool
  | [] => false
  | c :: _ => isWhite c || isParen c

mutual

/-- The canonically printable literal values of claim C8: integral
numbers of magnitude at most `2 ^ 53` (exactly representable doubles,
printed `n.0`), quote sugar with exactly one operand, and lists of such
values; bare symbols are excluded — the claim's texts contain no
symbolic variables. -/
def canonical : Sexpr → Bool
  | Sexpr.num q => decide (q.den = 1) && decide (q.num.natAbs ≤ 2 ^ 53)
  | Sexpr.sym _ => false
  | Sexpr.list [] => true
  | Sexpr.list (x :: rest) =>
      if x = Sexpr.sym ("quote") then
        match rest with
        | [y] => canonical y
        | _ => false
      else canonicalList (x :: rest)
termination_by structural s => s

/-- `canonical`, elementwise. -/
def canonicalList : List Sexpr → Bool
  | [] => true
  | x :: xs => canonical x && canonicalList xs
termination_by structural l => l

end

mutual

/-- Reader fuel sufficient to parse the canonical rendering of a
value. -/
def need : Sexpr → Nat
  | Sexpr.num _ => 1
  | Sexpr.sym _ => 1
  | Sexpr.list [] => 3
  | Sexpr.list (x :: rest) =>
      if x = Sexpr.sym ("quote") then
        match rest with
        | [y] => need y + 1
        | _ => 1
      else needList (x :: rest) + 1
termination_by structural s => s

/-- Reader fuel sufficient for the list loop over the rendered
elements and the closing parenthesis. -/
def needList : List Sexpr → Nat
  | [] => 2
  | x :: xs => need x + needList xs + 1
termination_by structural l => l

end

/-- The rendered tail of a list: the elements separated by single
spaces, then the closing parenthesis — exactly the text the list loop
consumes after the opening parenthesis. -/
def putTail : List Sexpr → List Char
  | [] => [')']
  | [x] => (putSexp x).data ++ [')']
  | x :: y :: xs => (putSexp x).data ++ ' ' :: putTail (y :: xs)

/-! ## Claim theorems -/

/-- C3: a `(setq n1 v1 ... nk vk)` form processes its operands two at a
time, left to right: the dispatch hands the operand list to `setq`; each
value expression is evaluated in the environment as updated by the
earlier pairs; its value is update-or-inserted under the literal name,
and the updated environment becomes both the lookup basis for the later
pairs and the new root; the form returns the last assigned value, and
the empty list when there are zero pairs.  The closing conjuncts run
`(setq)` and `(setq a 1 b (+ a 1))` end to end. -/
theorem C3_setq :
    (∀ (f : Nat) (rest : List Sexpr) (alist : Env) (st : St),
        eval (f + 1) (Sexpr.list (Sexpr.sym ("setq") :: rest)) alist st
          = setq f rest alist (Sexpr.list []) st)
    ∧ (∀ (f : Nat) (alist : Env) (ret : Sexpr) (st : St),
        setq (f + 1) [] alist ret st = some (ret, st))
    ∧ (∀ (f : Nat) (x : Sexpr) (alist : Env) (ret : Sexpr) (st : St),
        setq (f + 1) [x] alist ret st = some (ret, st))
    ∧ (∀ (f : Nat) (n v : Sexpr) (rest : List Sexpr) (alist : Env)
          (ret : Sexpr) (st : St),
        setq (f + 1) (n :: v :: rest) alist ret st
          = (eval f v alist st).bind (fun p =>
              setq f rest (update_global n p.1 alist p.2.heap).1 p.1
                ⟨(update_global n p.1 alist p.2.heap).2,
                 (update_global n p.1 alist p.2.heap).1⟩))
    ∧ runMain 5 [Sexpr.list [Sexpr.sym ("setq")]] st0
        = some (Sexpr.list [], st0)
    ∧ runMain 30
        [lx [sx ("setq"), sx ("a"), nx 1, sx ("b"),
            lx [sx ("+"), sx ("a"), nx 1]]] st0
        = some (nx 2, ⟨[(sx ("a"), nx 1), (sx ("b"), nx 2)], [1, 0]⟩) :=
  ⟨fun _ _ _ _ => rfl, fun _ _ _ _ => rfl, fun _ _ _ _ _ => rfl,
   fun _ _ _ _ _ _ _ => rfl, by decide, by decide!⟩

/-- C4: after evaluating the bootstrap
`(defun fact (x) (cond ((eq x 0) 1) (t (* x (fact (- x 1))))))` against
the root environment, evaluating `(fact 5)` against the resulting root
environment terminates and returns the number 120.0. -/
theorem C4_fact5 :
    (runMain 100 [factDefun, lx [sx ("fact"), nx 5]] st0).map (fun p => p.1)
      = some (Sexpr.num 120) := by decide!

/-- C5 counterexample: the claim says `(set q v)` behaves like
`(setq n v)` with `n` the value of `q`, with the same result and the
same root updates.  On `(set 'x '(+ 1 2))` the interpreter stores and
returns 3.0 — the value expression is evaluated a second time — while
`(setq x '(+ 1 2))` stores and returns the list `(+ 1 2)`. -/
theorem C5_counterexample :
    (runMain 30 [lx [sx ("set"), lx [sx ("quote"), sx ("x")],
        lx [sx ("quote"), lx [sx ("+"), nx 1, nx 2]]]] st0).map (fun p => p.1)
      = some (Sexpr.num 3)
    ∧ (runMain 30 [lx [sx ("setq"), sx ("x"),
        lx [sx ("quote"), lx [sx ("+"), nx 1, nx 2]]]] st0).map (fun p => p.1)
      = some (Sexpr.list [Sexpr.sym ("+"), Sexpr.num 1, Sexpr.num 2])
    ∧ Sexpr.num 3 ≠ Sexpr.list [Sexpr.sym ("+"), Sexpr.num 1, Sexpr.num 2] := by
  refine ⟨by decide!, by decide!, by decide⟩

/-- C5 amended: `(set ...)` first evaluates all its operands (names and
values alike) once through `evlis` and then runs the `setq` pair
processing on the results — so each value expression is effectively
evaluated twice.  When the values are self-evaluating literals this
coincides with `setq` on the evaluated names: `(set 'x 1)` is
indistinguishable from `(setq x 1)`, returning 1.0 and installing the
same root binding. -/
theorem C5_set_like_setq_after_evlis :
    (∀ (f : Nat) (rest : List Sexpr) (alist : Env) (st : St),
        eval (f + 1) (Sexpr.list (Sexpr.sym ("set") :: rest)) alist st
          = (evlis f rest alist st).bind
              (fun p => setq f p.1 alist (Sexpr.list []) p.2))
    ∧ runMain 20 [lx [sx ("set"), lx [sx ("quote"), sx ("x")], nx 1]] st0
        = runMain 20 [lx [sx ("setq"), sx ("x"), nx 1]] st0
    ∧ runMain 20 [lx [sx ("setq"), sx ("x"), nx 1]] st0
        = some (nx 1, ⟨[(sx ("x"), nx 1)], [0]⟩) :=
  ⟨fun _ _ _ _ => rfl, by decide, by decide⟩

/-- C7 counterexample: the claim's rule — take the first clause whose
predicate value is a non-empty list, else return the empty list — gives
the empty list on `(cond (0 1) (t 2))`, since neither the number 0 nor
the symbol `t` is a non-empty list; the interpreter returns 2.0: the
number 0 is falsy and the symbol `t` is truthy on the host. -/
theorem C7_counterexample :
    (runMain 30 [lx [sx ("cond"), lx [nx 0, nx 1], lx [sx ("t"), nx 2]]]
        st0).map (fun p => p.1)
      = some (Sexpr.num 2)
    ∧ (evconClaim 29 [lx [nx 0, nx 1], lx [sx ("t"), nx 2]] [] st0).map
        (fun p => p.1)
      = some (Sexpr.list [])
    ∧ Sexpr.num 2 ≠ Sexpr.list [] := by
  refine ⟨by decide!, by decide!, by decide⟩

/-- C7 amended: `(cond (p1 c1) ... (pk ck))` evaluates the predicates
in listed order and stops at the first whose value is truthy in the host
sense — anything other than the empty list, the number 0 and the empty
symbol — evaluating and returning only that clause's consequent; later
predicates and the other consequents are never evaluated, and if no
predicate is truthy the result is the empty list.  In particular
`(cond (nil 1) (t 2))` evaluates to 2.0, and a `setq` sitting in an
unreached clause leaves the state untouched. -/
theorem C7_cond_truthy :
    (∀ (f : Nat) (rest : List Sexpr) (alist : Env) (st : St),
        eval (f + 1) (Sexpr.list (Sexpr.sym ("cond") :: rest)) alist st
          = evcon f rest alist st)
    ∧ (∀ (f : Nat) (alist : Env) (st : St),
        evcon (f + 1) [] alist st = some (Sexpr.list [], st))
    ∧ (∀ (f : Nat) (p conseq : Sexpr) (extras cs : List Sexpr) (alist : Env)
          (st : St),
        evcon (f + 1) (Sexpr.list (p :: conseq :: extras) :: cs) alist st
          = (eval f p alist st).bind (fun pv =>
              if truthy pv.1 then eval f conseq alist pv.2
              else evcon f cs alist pv.2))
    ∧ truthy (Sexpr.list []) = false
    ∧ (∀ (x : Sexpr) (xs : List Sexpr), truthy (Sexpr.list (x :: xs)) = true)
    ∧ (∀ q : Rat, truthy (Sexpr.num q) = decide (q ≠ 0))
    ∧ (∀ s : String, truthy (Sexpr.sym s) = decide (s ≠ ("")))
    ∧ (runMain 30 [lx [sx ("cond"), lx [sx ("nil"), nx 1],
          lx [sx ("t"), nx 2]]] st0).map (fun p => p.1)
        = some (Sexpr.num 2)
    ∧ runMain 30 [lx [sx ("cond"), lx [sx ("t"), nx 1],
          lx [lx [sx ("setq"), sx ("z"), nx 99], nx 2]]] st0
        = some (nx 1, st0) :=
  ⟨fun _ _ _ _ => rfl, fun _ _ _ => rfl, fun _ _ _ _ _ _ _ => rfl,
   rfl, fun _ _ => rfl, fun _ => rfl, fun _ => rfl, by decide, by decide⟩

/-- C9: every `def`/`defun`/`setq` (and `set`, which funnels into the
same `setq`) executed against the current — possibly lambda-extended —
environment reassigns the root to that entire extended environment, not
just a single binding: `def`/`defun` make the root the current
environment plus the new cell, and an inserting `setq` makes the root
the current environment with the new cell prepended.  The closing run
calls `((lambda (x) (setq z x)) 99)` after `(setq x 1)`: afterwards the
root carries the lambda's parameter cell `x ↦ 99`, which shadows the
global `x ↦ 1`, so a top-level `x` then reads 99. -/
theorem C9_root_rebound_to_extended_env :
    (∀ (f : Nat) (name value : Sexpr) (alist : Env) (st : St),
        eval (f + 1) (Sexpr.list [Sexpr.sym ("def"), name, value]) alist st
          = some (name,
              ⟨st.heap ++ [(name, value)], st.heap.length :: alist⟩))
    ∧ (∀ (f : Nat) (name : Sexpr) (defrest : List Sexpr) (alist : Env)
          (st : St),
        eval (f + 1) (Sexpr.list (Sexpr.sym ("defun") :: name :: defrest))
            alist st
          = some (name,
              ⟨st.heap ++
                  [(name, Sexpr.list (Sexpr.sym ("lambda") :: defrest))],
                st.heap.length :: alist⟩))
    ∧ (∀ (f : Nat) (n v x : Sexpr) (alist : Env) (st st1 : St),
        eval (f + 1) v alist st = some (x, st1) →
        (∀ r ∈ alist, (deref st1.heap r).1 ≠ n) →
        eval (f + 3) (Sexpr.list [Sexpr.sym ("setq"), n, v]) alist st
          = some (x, ⟨st1.heap ++ [(n, x)], st1.heap.length :: alist⟩))
    ∧ runMain 30
        [lx [sx ("setq"), sx ("x"), nx 1],
         lx [lx [sx ("lambda"), lx [sx ("x")],
              lx [sx ("setq"), sx ("z"), sx ("x")]], nx 99],
         sx ("x")] st0
        = some (nx 99,
            ⟨[(sx ("x"), nx 1), (sx ("x"), nx 99), (sx ("z"), nx 99)],
             [2, 1, 0]⟩) := by
  refine ⟨fun _ _ _ _ _ => rfl, fun _ _ _ _ _ => rfl, ?_, by decide!⟩
  intro f n v x alist st st1 h1 h2
  have hd : eval (f + 3) (Sexpr.list [Sexpr.sym ("setq"), n, v]) alist st
      = setq (f + 2) [n, v] alist (Sexpr.list []) st := rfl
  have hs : setq (f + 2) [n, v] alist (Sexpr.list []) st
      = (eval (f + 1) v alist st).bind (fun p =>
          setq (f + 1) [] (update_global n p.1 alist p.2.heap).1 p.1
            ⟨(update_global n p.1 alist p.2.heap).2,
             (update_global n p.1 alist p.2.heap).1⟩) := rfl
  have hfind : alist.reverse.find?
      (fun r => decide ((deref st1.heap r).1 = n)) = none := by
    refine List.find?_eq_none.mpr ?_
    intro r hr
    simpa using h2 r (List.mem_reverse.mp hr)
  rw [hd, hs, h1]
  simp only [Option.some_bind, update_global, hfind]
  rfl

/-- The back-to-front scan of `update_global` finds the backmost
matching address: everything behind it fails the test, so the reversed
scan hits it first. -/
theorem find?_reverse_split (h : Heap) (name : Sexpr) (e1 e2 : Env) (r : Nat)
    (hr : (deref h r).1 = name)
    (he2 : ∀ r2 ∈ e2, (deref h r2).1 ≠ name) :
    (e1 ++ r :: e2).reverse.find?
        (fun x => decide ((deref h x).1 = name)) = some r := by
  rw [List.reverse_append, List.reverse_cons, List.append_assoc,
    List.find?_append]
  have h2 : e2.reverse.find? (fun x => decide ((deref h x).1 = name))
      = none :=
    List.find?_eq_none.mpr (fun x hx => by
      simpa using he2 x (List.mem_reverse.mp hx))
  rw [h2]
  simp [List.find?, hr]

/-- C2: `update_global(name, value, alist)` scans the bindings from the
back (oldest) toward the front; at the first (i.e. backmost, oldest)
match it overwrites that cell's value in place — same name, same cell
address — and returns the very same environment sequence; when no
binding anywhere matches, a fresh `(name, value)` cell is allocated and
its address is prepended to the front of the environment. -/
theorem C2_update_global :
    (∀ (name v : Sexpr) (h : Heap) (e1 e2 : Env) (r : Nat),
        (deref h r).1 = name →
        (∀ r2 ∈ e2, (deref h r2).1 ≠ name) →
        update_global name v (e1 ++ r :: e2) h
          = (e1 ++ r :: e2, h.set r (name, v)))
    ∧ (∀ (name v : Sexpr) (alist : Env) (h : Heap),
        (∀ r ∈ alist, (deref h r).1 ≠ name) →
        update_global name v alist h
          = (h.length :: alist, h ++ [(name, v)])) := by
  constructor
  · intro name v h e1 e2 r hr he2
    rw [update_global, find?_reverse_split h name e1 e2 r hr he2]
    show (e1 ++ r :: e2, List.set h r ((deref h r).1, v)) = _
    rw [hr]
  · intro name v alist h hno
    have hfind : alist.reverse.find?
        (fun x => decide ((deref h x).1 = name)) = none :=
      List.find?_eq_none.mpr (fun x hx => by
        simpa using hno x (List.mem_reverse.mp hx))
    rw [update_global, hfind]

/-- Witness for C2 on a concrete heap `[a ↦ 1, b ↦ 2]`: updating `a`
mutates cell 0 in place and keeps the environment `[0, 1]` (the
non-matching binding behind it is scanned first and skipped), while
updating the absent `z` prepends a fresh cell. -/
theorem C2_update_global_witness :
    ((deref [(sx ("a"), nx 1), (sx ("b"), nx 2)] 0).1 = sx ("a")
      ∧ (∀ r2 ∈ ([1] : Env),
          (deref [(sx ("a"), nx 1), (sx ("b"), nx 2)] r2).1 ≠ sx ("a"))
      ∧ update_global (sx ("a")) (nx 9) ([] ++ 0 :: [1])
            [(sx ("a"), nx 1), (sx ("b"), nx 2)]
          = ([] ++ 0 :: [1],
             List.set [(sx ("a"), nx 1), (sx ("b"), nx 2)] 0
               (sx ("a"), nx 9)))
    ∧ ((∀ r ∈ ([0, 1] : Env),
          (deref [(sx ("a"), nx 1), (sx ("b"), nx 2)] r).1 ≠ sx ("z"))
      ∧ update_global (sx ("z")) (nx 9) [0, 1]
            [(sx ("a"), nx 1), (sx ("b"), nx 2)]
          = (2 :: [0, 1],
             [(sx ("a"), nx 1), (sx ("b"), nx 2)] ++ [(sx ("z"), nx 9)])) :=
  ⟨⟨by decide, by decide,
    C2_update_global.1 (sx ("a")) (nx 9) _ [] [1] 0 (by decide) (by decide)⟩,
   ⟨by decide,
    C2_update_global.2 (sx ("z")) (nx 9) [0, 1] _ (by decide)⟩⟩

/-- `resolve` on an environment with no matching binding yields the
empty list. -/
theorem resolve_eq_nil (symb : Sexpr) (env : Env) (h : Heap)
    (hno : ∀ r ∈ env, (deref h r).1 ≠ symb) :
    resolve symb env h = Sexpr.list [] := by
  induction env with
  | nil => rfl
  | cons r rs ih =>
      rw [resolve, if_neg (hno r (List.mem_cons_self r rs))]
      exact ih (fun x hx => hno x (List.mem_cons_of_mem r hx))

/-- `resolve` returns the value of the frontmost matching binding,
skipping any non-matching prefix. -/
theorem resolve_front (symb : Sexpr) (h : Heap) (e1 : Env) (r : Nat)
    (e2 : Env) (he1 : ∀ r2 ∈ e1, (deref h r2).1 ≠ symb)
    (hr : (deref h r).1 = symb) :
    resolve symb (e1 ++ r :: e2) h = (deref h r).2 := by
  induction e1 with
  | nil => rw [List.nil_append, resolve, if_pos hr]
  | cons a e1 ih =>
      rw [List.cons_append, resolve,
        if_neg (he1 a (List.mem_cons_self a e1))]
      exact ih (fun x hx => he1 x (List.mem_cons_of_mem a hx))

/-- C6: a symbol other than `t`, `nil` and `alist` evaluates — always
successfully, never as an error — to the result of `resolve`, which
scans the environment from the front and returns the value of the
frontmost binding of that symbol, or the empty list when no binding
matches. -/
theorem C6_symbol_lookup :
    (∀ (f : Nat) (s : String) (alist : Env) (st : St),
        s ≠ ("t") → s ≠ ("nil") → s ≠ ("alist") →
        eval (f + 1) (Sexpr.sym s) alist st
          = some (resolve (Sexpr.sym s) alist st.heap, st))
    ∧ (∀ (symb : Sexpr) (h : Heap), resolve symb [] h = Sexpr.list [])
    ∧ (∀ (symb : Sexpr) (h : Heap) (r : Nat) (rs : Env),
        resolve symb (r :: rs) h
          = if (deref h r).1 = symb then (deref h r).2
            else resolve symb rs h)
    ∧ (∀ (symb : Sexpr) (env : Env) (h : Heap),
        (∀ r ∈ env, (deref h r).1 ≠ symb) →
        resolve symb env h = Sexpr.list [])
    ∧ (∀ (symb : Sexpr) (h : Heap) (e1 : Env) (r : Nat) (e2 : Env),
        (∀ r2 ∈ e1, (deref h r2).1 ≠ symb) → (deref h r).1 = symb →
        resolve symb (e1 ++ r :: e2) h = (deref h r).2) := by
  refine ⟨?_, fun _ _ => rfl, fun _ _ _ _ => rfl,
    fun symb env h hno => resolve_eq_nil symb env h hno,
    fun symb h e1 r e2 he1 hr => resolve_front symb h e1 r e2 he1 hr⟩
  intro f s alist st h1 h2 h3
  simp [eval, h1, h2, h3]

/-- Witness for C6: the unbound symbol `y` evaluates to the empty list
(no error), and `x` evaluates to the value of its frontmost binding even
when an older binding of `x` sits behind a binding of another name. -/
theorem C6_symbol_lookup_witness :
    ((("y") : String) ≠ ("t") ∧ (("y") : String) ≠ ("nil")
      ∧ (("y") : String) ≠ ("alist")
      ∧ eval 4 (Sexpr.sym ("y")) [0]
          ⟨[(sx ("x"), nx 1)], [0]⟩
        = some (resolve (Sexpr.sym ("y")) [0] [(sx ("x"), nx 1)],
            ⟨[(sx ("x"), nx 1)], [0]⟩))
    ∧ ((∀ r ∈ ([0] : Env),
          (deref [(sx ("x"), nx 1)] r).1 ≠ Sexpr.sym ("y")) ∧
        resolve (Sexpr.sym ("y")) [0] [(sx ("x"), nx 1)] = Sexpr.list [])
    ∧ ((∀ r2 ∈ ([1] : Env),
          (deref [(sx ("x"), nx 1), (sx ("b"), nx 2), (sx ("x"), nx 3)]
              r2).1 ≠ Sexpr.sym ("x"))
      ∧ (deref [(sx ("x"), nx 1), (sx ("b"), nx 2), (sx ("x"), nx 3)]
            2).1 = Sexpr.sym ("x")
      ∧ resolve (Sexpr.sym ("x")) ([1] ++ 2 :: [0])
            [(sx ("x"), nx 1), (sx ("b"), nx 2), (sx ("x"), nx 3)]
          = (deref [(sx ("x"), nx 1), (sx ("b"), nx 2), (sx ("x"), nx 3)]
              2).2) :=
  ⟨⟨by decide, by decide, by decide,
    C6_symbol_lookup.1 3 ("y") [0] ⟨[(sx ("x"), nx 1)], [0]⟩
      (by decide) (by decide) (by decide)⟩,
   ⟨by decide,
    C6_symbol_lookup.2.2.2.1 (Sexpr.sym ("y")) [0] [(sx ("x"), nx 1)]
      (by decide)⟩,
   ⟨by decide, by decide,
    C6_symbol_lookup.2.2.2.2 (Sexpr.sym ("x"))
      [(sx ("x"), nx 1), (sx ("b"), nx 2), (sx ("x"), nx 3)]
      [1] 2 [0] (by decide) (by decide)⟩⟩

/-- `bind` on parallel lists of equal length allocates one fresh cell
per pair, in order, and prepends the fresh addresses onto the caller's
environment, first parameter nearest the front. -/
theorem bindList_eq_of_length (ps : List Sexpr) :
    ∀ (args : List Sexpr) (alist : Env) (st : St),
      ps.length = args.length →
      bindList ps args alist st
        = some (List.range' st.heap.length ps.length ++ alist,
            ⟨st.heap ++ ps.zip args, st.root⟩) := by
  induction ps with
  | nil =>
      intro args alist st h
      cases args with
      | nil => simp [bindList, List.range']
      | cons a as => simp at h
  | cons p ps ih =>
      intro args alist st h
      cases args with
      | nil => simp at h
      | cons a as =>
          have h' : ps.length = as.length := by simpa using h
          rw [bindList, ih as alist ⟨st.heap ++ [(p, a)], st.root⟩ h']
          simp [List.range'_succ, List.zip_cons_cons]

/-- C1: applying `(lambda (p1 ... pn) b1 ... bm)` to `n` evaluated
arguments binds each `pi` to the corresponding argument in fresh cells
prepended onto the caller's environment — dynamic scoping: the lambda
value carries no definition-time environment at all — and then runs the
body expressions in order under that environment via the body loop,
which threads the state and returns the last body's value.  The closing
runs show a two-expression body returning the second value, and a
callee reading the caller's parameter binding. -/
theorem C1_lambda_application :
    (∀ (f : Nat) (ps body args : List Sexpr) (alist : Env) (st : St),
        ps.length = args.length →
        apply (f + 1)
            (Sexpr.list (Sexpr.sym ("lambda") :: Sexpr.list ps :: body))
            args alist st
          = evalBody f body
              (List.range' st.heap.length ps.length ++ alist)
              ⟨st.heap ++ ps.zip args, st.root⟩)
    ∧ (∀ (f : Nat) (e : Sexpr) (alist : Env) (st : St),
        evalBody (f + 1) [e] alist st = eval f e alist st)
    ∧ (∀ (f : Nat) (e e2 : Sexpr) (es : List Sexpr) (alist : Env) (st : St),
        evalBody (f + 1) (e :: e2 :: es) alist st
          = (eval f e alist st).bind
              (fun p => evalBody f (e2 :: es) alist p.2))
    ∧ (runMain 30
        [lx [lx [sx ("lambda"), lx [sx ("x"), sx ("y")],
              lx [sx ("+"), sx ("x"), sx ("y")],
              lx [sx ("*"), sx ("x"), sx ("y")]], nx 2, nx 3]] st0).map
        (fun p => p.1) = some (nx 6)
    ∧ (runMain 40
        [lx [sx ("setq"), sx ("x"), nx 1],
         lx [sx ("defun"), sx ("g2"), lx [], sx ("x")],
         lx [lx [sx ("lambda"), lx [sx ("x")], lx [sx ("g2")]],
             nx 99]] st0).map (fun p => p.1) = some (nx 99) := by
  refine ⟨?_, fun _ _ _ _ => rfl, fun _ _ _ _ _ _ => rfl,
    by decide!, by decide!⟩
  intro f ps body args alist st h
  show (bind (Sexpr.list ps) args alist st).bind
      (fun p => evalBody f body p.1 p.2) = _
  rw [show bind (Sexpr.list ps) args alist st
      = bindList ps args alist st from rfl,
    bindList_eq_of_length ps args alist st h]
  rfl

/-- Witness for C1: applying `(lambda (p) p)` to the single argument 8
binds a fresh cell `p ↦ 8` prepended onto the empty caller environment
and runs the body under it. -/
theorem C1_lambda_application_witness :
    ([sx ("p")].length = [nx 8].length)
    ∧ apply 6 (Sexpr.list (Sexpr.sym ("lambda")
          :: Sexpr.list [sx ("p")] :: [sx ("p")])) [nx 8] [] st0
        = evalBody 5 [sx ("p")]
            (List.range' (List.length st0.heap) [sx ("p")].length ++ [])
            ⟨st0.heap ++ [sx ("p")].zip [nx 8], st0.root⟩ :=
  ⟨by decide,
   C1_lambda_application.1 5 [sx ("p")] [sx ("p")] [nx 8] [] st0 (by decide)⟩

/-- Witness for C9: a top-level `(setq n 7)` on the empty environment
evaluates the value, allocates the binding, and reassigns the root to
the whole updated environment. -/
theorem C9_root_rebound_witness :
    (eval (2 + 1) (nx 7) [] st0 = some (nx 7, st0)
      ∧ (∀ r ∈ ([] : Env), (deref st0.heap r).1 ≠ sx ("n"))
      ∧ eval (2 + 3) (Sexpr.list [Sexpr.sym ("setq"), sx ("n"), nx 7]) [] st0
          = some (nx 7, ⟨st0.heap ++ [(sx ("n"), nx 7)],
              List.length st0.heap :: []⟩)) :=
  ⟨by decide, by decide,
   C9_root_rebound_to_extended_env.2.2.1 2 (sx ("n")) (nx 7) (nx 7) [] st0 st0
     (by decide) (by decide)⟩

/-- C10: a `(set q v)` form evaluates its value operand twice — once in
the `evlis` pass over the operands, and a second time inside `setq` —
so the stored value is the result of evaluating the value of `v`:
`(set 'x '(+ 1 2))` returns 3.0 and binds `x` to the number 3.0 in the
root, not to the list `(+ 1 2)`. -/
theorem C10_set_double_evaluation :
    (∀ (f : Nat) (rest : List Sexpr) (alist : Env) (st : St),
        eval (f + 1) (Sexpr.list (Sexpr.sym ("set") :: rest)) alist st
          = (evlis f rest alist st).bind
              (fun p => setq f p.1 alist (Sexpr.list []) p.2))
    ∧ (∀ (f : Nat) (n v : Sexpr) (rest : List Sexpr) (alist : Env)
          (ret : Sexpr) (st : St),
        setq (f + 1) (n :: v :: rest) alist ret st
          = (eval f v alist st).bind (fun p =>
              setq f rest (update_global n p.1 alist p.2.heap).1 p.1
                ⟨(update_global n p.1 alist p.2.heap).2,
                 (update_global n p.1 alist p.2.heap).1⟩))
    ∧ runMain 30 [lx [sx ("set"), lx [sx ("quote"), sx ("x")],
          lx [sx ("quote"), lx [sx ("+"), nx 1, nx 2]]]] st0
        = some (nx 3, ⟨[(sx ("x"), nx 3)], [0]⟩)
    ∧ Sexpr.num 3 ≠ Sexpr.list [Sexpr.sym ("+"), Sexpr.num 1, Sexpr.num 2] :=
  ⟨fun _ _ _ _ => rfl, fun _ _ _ _ _ _ _ => rfl, by decide!, by decide⟩

/-! ## Round-trip lemmas for the reader and the printer -/

/-- Everything the round trip needs about a digit character. -/
theorem digitChar_props : ∀ d, d < 10 →
    isWhite (digitChar d) = false ∧ isParen (digitChar d) = false
    ∧ digitChar d ≠ ('(') ∧ digitChar d ≠ (')')
    ∧ digitChar d ≠ quoteChar ∧ digitChar d ≠ ('-') ∧ digitChar d ≠ ('+')
    ∧ digitVal (digitChar d) = some d := by decide

/-- Appending one digit multiplies the value by ten and adds it. -/
theorem digitsVal_append (ds : List Nat) (d : Nat) :
    digitsVal (ds ++ [d]) = 10 * digitsVal ds + d := by
  simp [digitsVal, List.foldl_append]

/-- With enough fuel, the digits of `n` evaluate back to `n`. -/
theorem digitsVal_natDigits : ∀ (f n : Nat), n < 10 ^ f →
    digitsVal (natDigits f n) = n
  | 0, n, h => by
      simp only [Nat.pow_zero, Nat.lt_one_iff] at h
      simp [h, natDigits, digitsVal]
  | f + 1, n, h => by
      rw [natDigits]
      by_cases h10 : n < 10
      · simp [h10, digitsVal]
      · rw [if_neg h10, digitsVal_append,
          digitsVal_natDigits f (n / 10)
            (by rw [Nat.pow_succ] at h; omega)]
        omega

/-- Every produced digit is below ten. -/
theorem natDigits_lt : ∀ (f n d : Nat), d ∈ natDigits f n → d < 10
  | 0, _, _, h => absurd h (List.not_mem_nil _)
  | f + 1, n, d, h => by
      rw [natDigits] at h
      by_cases h10 : n < 10
      · rw [if_pos h10] at h
        simp only [List.mem_singleton] at h
        omega
      · rw [if_neg h10] at h
        rcases List.mem_append.mp h with h1 | h2
        · exact natDigits_lt f (n / 10) d h1
        · simp only [List.mem_singleton] at h2
          omega

/-- With positive fuel the digit list is never empty. -/
theorem natDigits_ne_nil (f n : Nat) : natDigits (f + 1) n ≠ [] := by
  rw [natDigits]
  by_cases h10 : n < 10
  · simp [h10]
  · rw [if_neg h10]
    simp

/-- `n` is always below `10 ^ (n + 1)`, so `natStr` has enough fuel. -/
theorem lt_ten_pow_succ (n : Nat) : n < 10 ^ (n + 1) :=
  Nat.lt_of_lt_of_le (Nat.lt_pow_self (by omega) n)
    (Nat.pow_le_pow_right (by omega) (Nat.le_succ n))

/-- A terminator character is never a digit. -/
theorem tokenEnd_no_digit : ∀ (l : List Char), tokenEnd l = true →
    ∀ c, l.head? = some c → digitVal c = none := by
  intro l h c hc
  cases l with
  | nil => simp [tokenEnd] at h
  | cons c0 cs =>
      have hcc : c = c0 := by simpa using hc.symm
      subst hcc
      rw [tokenEnd, Bool.or_eq_true] at h
      rw [digitVal]
      rcases h with h | h
      · rw [isWhite, decide_eq_true_iff] at h
        rw [if_neg (by omega)]
      · rw [isParen, Bool.or_eq_true] at h
        rcases h with h | h <;>
          · rw [decide_eq_true_iff] at h
            subst h
            decide

/-- `readDigits` consumes exactly a rendered digit run and stops at the
first non-digit. -/
theorem readDigits_map : ∀ (ds : List Nat) (l : List Char),
    (∀ d ∈ ds, d < 10) →
    (∀ c, l.head? = some c → digitVal c = none) →
    readDigits (ds.map digitChar ++ l) = (ds, l)
  | [], l, _, hl => by
      cases l with
      | nil => rfl
      | cons c cs =>
          rw [List.map_nil, List.nil_append, readDigits, hl c rfl]
  | d :: ds, l, hds, hl => by
      have hd : d < 10 := hds d (List.mem_cons_self _ _)
      rw [List.map_cons, List.cons_append, readDigits,
        (digitChar_props d hd).2.2.2.2.2.2.2,
        readDigits_map ds l (fun x hx => hds x (List.mem_cons_of_mem _ hx))
          hl]

/-- The accumulation loop gathers exactly the word characters and leaves
the terminator. -/
theorem readRest_word : ∀ (w l : List Char),
    (∀ c ∈ w, isWhite c = false ∧ isParen c = false) →
    tokenEnd l = true →
    readRest (w ++ l) = some (w, l)
  | [], l, _, hl => by
      cases l with
      | nil => simp [tokenEnd] at hl
      | cons c cs =>
          rw [tokenEnd] at hl
          rw [List.nil_append, readRest, if_pos hl]
  | c :: w, l, hw, hl => by
      have hc := hw c (List.mem_cons_self _ _)
      rw [List.cons_append, readRest]
      rw [show (isWhite c || isParen c) = false by simp [hc.1, hc.2]]
      rw [readRest_word w l (fun x hx => hw x (List.mem_cons_of_mem _ hx))
        hl]
      rfl

/-- `getToken` on a word followed by a terminator: the word becomes one
token — a number when the host float parse accepts it, else a symbol —
and the terminator is left in place. -/
theorem getToken_word (c : Char) (w l : List Char)
    (hcw : isWhite c = false) (hcp : isParen c = false)
    (hcq : c ≠ quoteChar)
    (hw : ∀ x ∈ w, isWhite x = false ∧ isParen x = false)
    (hl : tokenEnd l = true) :
    getToken ((c :: w) ++ l)
      = some (match parseFloat (c :: w) with
          | some q => (Tok.num q, l)
          | none => (Tok.sym (String.mk (c :: w)), l)) := by
  have hlpar : ¬(c = ('(')) := by
    intro h; rw [isParen, h] at hcp; simp at hcp
  have hrpar : ¬(c = (')')) := by
    intro h; rw [isParen, h] at hcp; simp at hcp
  have h1 : skipWhite ((c :: w) ++ l) = some (c :: (w ++ l)) := by
    rw [List.cons_append, skipWhite, if_neg (by rw [hcw]; simp)]
  rw [getToken, h1, Option.some_bind]
  show (if c = ('(') then some (Tok.lpar, w ++ l)
      else if c = (')') then some (Tok.rpar, w ++ l)
      else if c = quoteChar then some (Tok.quo, w ++ l)
      else (readRest (w ++ l)).map (fun p =>
        match parseFloat (c :: p.1) with
        | some q => (Tok.num q, p.2)
        | none => (Tok.sym (String.mk (c :: p.1)), p.2))) = _
  rw [if_neg hlpar, if_neg hrpar, if_neg hcq, readRest_word w l hw hl]
  rfl

/-- Every character of a rendered integer-dot-zero literal is a plain
word character, and none is the tick. -/
theorem intStr_chars (n : Int) :
    ∀ x ∈ intStr n ++ ['.', '0'],
      isWhite x = false ∧ isParen x = false ∧ x ≠ quoteChar := by
  intro x hx
  rcases List.mem_append.mp hx with h | h
  · rw [intStr] at h
    by_cases hn : n < 0
    · rw [if_pos hn] at h
      rcases List.mem_cons.mp h with h | h
      · subst h; exact ⟨by decide, by decide, by decide⟩
      · obtain ⟨d, hd, rfl⟩ := List.mem_map.mp h
        have hd10 := natDigits_lt _ _ d hd
        exact ⟨(digitChar_props d hd10).1, (digitChar_props d hd10).2.1,
          (digitChar_props d hd10).2.2.2.2.1⟩
    · rw [if_neg hn] at h
      obtain ⟨d, hd, rfl⟩ := List.mem_map.mp h
      have hd10 := natDigits_lt _ _ d hd
      exact ⟨(digitChar_props d hd10).1, (digitChar_props d hd10).2.1,
        (digitChar_props d hd10).2.2.2.2.1⟩
  · rcases List.mem_cons.mp h with h | h
    · subst h; exact ⟨by decide, by decide, by decide⟩
    · rcases List.mem_cons.mp h with h | h
      · subst h; exact ⟨by decide, by decide, by decide⟩
      · exact absurd h (List.not_mem_nil x)

/-- The host float parse recovers an integer from its canonical
`n.0` rendering. -/
theorem parseFloat_intStr (n : Int) :
    parseFloat (intStr n ++ ['.', '0']) = some ((n : ℚ)) := by
  set N := n.natAbs with hN
  set ds := natDigits (N + 1) N with hds
  have hlt : ∀ d ∈ ds, d < 10 := fun d hd => natDigits_lt _ _ d hd
  have hval : digitsVal ds = N := digitsVal_natDigits _ _ (lt_ten_pow_succ _)
  have hdot : ∀ c, (['.', '0'] : List Char).head? = some c →
      digitVal c = none := by
    intro c hc
    have : c = ('.') := by simpa using hc.symm
    subst this; decide
  have hrd : readDigits (ds.map digitChar ++ ['.', '0'])
      = (ds, ['.', '0']) := readDigits_map ds _ hlt hdot
  have hzero : readDigits (['0'] : List Char) = ([0], []) := by decide
  have hnil : ds ≠ [] := natDigits_ne_nil _ _
  obtain ⟨d0, ds', hcons⟩ := List.exists_cons_of_ne_nil hnil
  have hd0 : d0 < 10 := hlt d0 (by rw [hcons]; exact List.mem_cons_self _ _)
  have hmk : ∀ m : Int, mkRat (m * 10) 10 = ((m : ℚ)) := by
    intro m
    rw [Rat.mkRat_eq_divInt]
    rw [show (((10 : Nat) : Int)) = 1 * 10 by norm_num]
    rw [Rat.divInt_mul_right (by norm_num), Rat.divInt_one]
  have hafter : ∀ sgn : Int,
      parseAfterDigits sgn ds ['.', '0'] =
        some (mkRat (sgn * ((N : Int) * 10 + 0)) 10) := by
    intro sgn
    rw [parseAfterDigits, if_pos rfl, hzero]
    rw [if_pos (by
      refine ⟨rfl, Or.inl ?_⟩
      rw [hcons]; simp)]
    rw [hval]
    norm_num [digitsVal]
  by_cases hn : n < 0
  · have hsplit : intStr n ++ ['.', '0']
        = '-' :: (ds.map digitChar ++ ['.', '0']) := by
      rw [intStr, if_pos hn, natStr, ← hN, ← hds, List.cons_append]
    rw [hsplit, parseFloat]
    have hsgn : parseSign ('-' :: (ds.map digitChar ++ ['.', '0']))
        = (-1, ds.map digitChar ++ ['.', '0']) := by
      rw [parseSign, if_pos rfl]
    rw [hsgn]
    simp only []
    rw [hrd]
    simp only []
    rw [hafter]
    have : (-1 * ((N : Int) * 10 + 0)) = (-(N : Int)) * 10 := by ring
    rw [this, hmk]
    have hNn : (-(N : Int)) = n := by omega
    rw [hNn]
  · have hsplit : intStr n ++ ['.', '0']
        = ds.map digitChar ++ ['.', '0'] := by
      rw [intStr, if_neg hn, natStr, ← hN, ← hds]
    have hds0 : ds.map digitChar ++ ['.', '0']
        = digitChar d0 :: (ds'.map digitChar ++ ['.', '0']) := by
      rw [hcons]; simp
    have hsgn : parseSign (ds.map digitChar ++ ['.', '0'])
        = (1, ds.map digitChar ++ ['.', '0']) := by
      rw [hds0, parseSign,
        if_neg (fun h => ((digitChar_props d0 hd0).2.2.2.2.2.1) h),
        if_neg (fun h => ((digitChar_props d0 hd0).2.2.2.2.2.2.1) h)]
    rw [hsplit, parseFloat, hsgn]
    simp only []
    rw [hrd]
    simp only []
    rw [hafter]
    have : (1 * ((N : Int) * 10 + 0)) = ((N : Int)) * 10 := by ring
    rw [this, hmk]
    have hNn : ((N : Int)) = n := by omega
    rw [hNn]

/-- The tokenizer turns a canonical `n.0` rendering followed by a
terminator into one number token. -/
theorem getToken_num (q : Rat) (l : List Char) (hden : q.den = 1)
    (hl : tokenEnd l = true) :
    getToken ((intStr q.num ++ ['.', '0']) ++ l) = some (Tok.num q, l) := by
  have hne : intStr q.num ++ ['.', '0'] ≠ [] := by simp
  obtain ⟨c, w, hw⟩ := List.exists_cons_of_ne_nil hne
  have hall := intStr_chars q.num
  rw [hw] at hall ⊢
  have hc := hall c (List.mem_cons_self _ _)
  rw [getToken_word c w l hc.1 hc.2.1 hc.2.2
    (fun x hx => ⟨(hall x (List.mem_cons_of_mem _ hx)).1,
      (hall x (List.mem_cons_of_mem _ hx)).2.1⟩) hl]
  rw [← hw, parseFloat_intStr q.num, Rat.coe_int_num_of_den_eq_one hden]

/-- The rendered quote sugar starts with the tick. -/
theorem quote_data : ("'").data = [quoteChar] := rfl

/-- A leading opening parenthesis starts the list loop. -/
theorem getSexp_lpar (f : Nat) (rest : List Char) :
    getSexp (f + 1) ('(' :: rest) = getList f rest [] := rfl

/-- A leading closing parenthesis becomes the one-character symbol the
host returns. -/
theorem getSexp_rpar (f : Nat) (rest : List Char) :
    getSexp (f + 1) (')' :: rest) = some (Sexpr.sym (")"), rest) := rfl

/-- A leading tick wraps the next expression in `quote`. -/
theorem getSexp_quo (f : Nat) (rest : List Char) :
    getSexp (f + 1) (quoteChar :: rest)
      = (getSexp f rest).map
          (fun p => (Sexpr.list [Sexpr.sym ("quote"), p.1], p.2)) := rfl

/-- The tokenizer skips a leading whitespace character. -/
theorem getToken_white (c : Char) (l : List Char) (h : isWhite c = true) :
    getToken (c :: l) = getToken l := by
  have hs : skipWhite (c :: l) = skipWhite l := by rw [skipWhite, if_pos h]
  rw [getToken, getToken, hs]

/-- The reader skips a leading whitespace character. -/
theorem getSexp_white (f : Nat) (c : Char) (l : List Char)
    (h : isWhite c = true) : getSexp f (c :: l) = getSexp f l := by
  cases f with
  | zero => rfl
  | succ f => rw [getSexp, getSexp, getToken_white c l h]

/-- The list loop skips a leading whitespace character. -/
theorem getList_white (f : Nat) (c : Char) (l : List Char)
    (acc : List Sexpr) (h : isWhite c = true) :
    getList f (c :: l) acc = getList f l acc := by
  cases f with
  | zero => rfl
  | succ f => rw [getList, getList, getSexp_white f c l h]

/-- `putTail` is the rendered element join plus the closing
parenthesis. -/
theorem putTail_eq : ∀ l : List Sexpr,
    putTail l = (joinSpace (putSexpList l)).data ++ [')']
  | [] => rfl
  | [x] => by
      rw [putTail,
        show putSexpList [x] = [putSexp x] from rfl,
        show joinSpace [putSexp x] = putSexp x from rfl]
  | x :: y :: xs => by
      rw [putTail, putTail_eq (y :: xs),
        show putSexpList (x :: y :: xs)
          = putSexp x :: putSexpList (y :: xs) from rfl]
      have hyl : ∃ z zs, putSexpList (y :: xs) = z :: zs :=
        ⟨putSexp y, putSexpList xs, rfl⟩
      obtain ⟨z, zs, hz⟩ := hyl
      rw [hz,
        show joinSpace (putSexp x :: z :: zs)
          = putSexp x ++ (" ") ++ joinSpace (z :: zs) from rfl]
      simp [String.data_append]

/-- Definitional unfolding of `need` on a non-empty list. -/
theorem need_list_cons (x : Sexpr) (rest : List Sexpr) :
    need (Sexpr.list (x :: rest))
      = if x = Sexpr.sym ("quote") then
          (match rest with | [y] => need y + 1 | _ => 1)
        else needList (x :: rest) + 1 := by rw [need.eq_def]

/-- Definitional unfolding of `canonical` on a non-empty list. -/
theorem canonical_list_cons (x : Sexpr) (rest : List Sexpr) :
    canonical (Sexpr.list (x :: rest))
      = if x = Sexpr.sym ("quote") then
          (match rest with | [y] => canonical y | _ => false)
        else canonicalList (x :: rest) := by rw [canonical.eq_def]

/-- Definitional unfolding of `putSexp` on a non-empty list. -/
theorem putSexp_list_cons (x : Sexpr) (rest : List Sexpr) :
    putSexp (Sexpr.list (x :: rest))
      = if x = Sexpr.sym ("quote") then
          (match rest with
           | y :: _ => ("'") ++ putSexp y
           | [] => ("'"))
        else ("(") ++ joinSpace (putSexpList (x :: rest)) ++ (")") := by
  rw [putSexp.eq_def]

/-- Reader fuel is always positive. -/
theorem need_pos : ∀ s : Sexpr, 1 ≤ need s
  | Sexpr.num _ => by simp [need]
  | Sexpr.sym _ => by simp [need]
  | Sexpr.list [] => by simp [need]
  | Sexpr.list (x :: rest) => by
      rw [need_list_cons]
      by_cases hq : x = Sexpr.sym ("quote")
      · rw [if_pos hq]
        rcases rest with _ | ⟨y, tl⟩
        · show 1 ≤ 1
          omega
        · rcases tl with _ | ⟨z, tl'⟩
          · show 1 ≤ need y + 1
            omega
          · show 1 ≤ 1
            omega
      · rw [if_neg hq]
        omega

/-- List-loop fuel is always positive. -/
theorem needList_pos : ∀ l : List Sexpr, 1 ≤ needList l
  | [] => by simp [needList]
  | x :: xs => by rw [needList]; omega

/-- `canonicalList` on the empty list. -/
theorem canonicalList_nil : canonicalList [] = true := by
  rw [canonicalList.eq_def]

/-- `canonicalList` on a cons. -/
theorem canonicalList_cons (x : Sexpr) (xs : List Sexpr) :
    canonicalList (x :: xs) = (canonical x && canonicalList xs) := by
  rw [canonicalList.eq_def]

/-- `needList` on the empty list. -/
theorem needList_nil : needList [] = 2 := by rw [needList.eq_def]

/-- `needList` on a cons. -/
theorem needList_cons (x : Sexpr) (xs : List Sexpr) :
    needList (x :: xs) = need x + needList xs + 1 := by
  rw [needList.eq_def]

/-- The reader parses the canonical rendering back to the value it was
printed from: joint statement for one expression and for the list loop,
by induction on a fuel bound. -/
theorem getSexp_putSexp_aux : ∀ F : Nat,
    (∀ (s : Sexpr) (rest : List Char) (f : Nat), f ≤ F →
        canonical s = true → tokenEnd rest = true → need s ≤ f →
        getSexp f ((putSexp s).data ++ rest) = some (s, rest))
    ∧ (∀ (l acc : List Sexpr) (rest : List Char) (f : Nat), f ≤ F →
        canonicalList l = true → needList l ≤ f →
        getList f (putTail l ++ rest) acc
          = some (Sexpr.list (acc.reverse ++ l), rest)) := by
  intro F
  induction F with
  | zero =>
      constructor
      · intro s rest f hf _ _ hneed
        have := need_pos s
        omega
      · intro l acc rest f hf _ hneed
        have := needList_pos l
        omega
  | succ F ih =>
      obtain ⟨ih1, ih2⟩ := ih
      constructor
      · intro s rest f hf hc hrest hneed
        cases s with
        | num q =>
            have hden : q.den = 1 := by
              rw [canonical.eq_def] at hc
              simp only [Bool.and_eq_true, decide_eq_true_eq] at hc
              exact hc.1
            have h1 : need (Sexpr.num q) = 1 := by rw [need.eq_def]
            obtain ⟨f', rfl⟩ : ∃ f', f = f' + 1 := ⟨f - 1, by omega⟩
            rw [show (putSexp (Sexpr.num q)).data = numToStr q by
              rw [putSexp.eq_def]]
            rw [show numToStr q = intStr q.num ++ ['.', '0'] by
              rw [numToStr, if_pos hden]]
            rw [getSexp, getToken_num q rest hden hrest]
            rfl
        | sym s' =>
            rw [canonical.eq_def] at hc
            simp at hc
        | list l =>
            cases l with
            | nil =>
                have h3 : need (Sexpr.list []) = 3 := by rw [need.eq_def]
                obtain ⟨f', rfl⟩ : ∃ f', f = f' + 1 := ⟨f - 1, by omega⟩
                rw [show (putSexp (Sexpr.list [])).data = ['(', ')'] by
                  rw [putSexp.eq_def]]
                rw [show (['(', ')'] : List Char) ++ rest
                    = '(' :: ([')'] ++ rest) from rfl]
                rw [getSexp_lpar]
                rw [show ([')'] : List Char) ++ rest
                    = putTail [] ++ rest from rfl]
                rw [ih2 [] [] rest f' (by omega) canonicalList_nil
                  (by rw [needList_nil]; omega)]
                rfl
            | cons x rest' =>
                by_cases hq : x = Sexpr.sym ("quote")
                · subst hq
                  rw [canonical_list_cons, if_pos rfl] at hc
                  rw [need_list_cons, if_pos rfl] at hneed
                  rcases rest' with _ | ⟨y, tl⟩
                  · simp at hc
                  · rcases tl with _ | ⟨z, tl'⟩
                    · have hcy : canonical y = true := by simpa using hc
                      have hny : need y + 1 ≤ f := by simpa using hneed
                      obtain ⟨f', rfl⟩ : ∃ f', f = f' + 1 := ⟨f - 1, by omega⟩
                      rw [show (putSexp
                            (Sexpr.list [Sexpr.sym ("quote"), y])).data
                          = quoteChar :: (putSexp y).data by
                        rw [putSexp_list_cons, if_pos rfl]
                        show (("'") ++ putSexp y).data = _
                        rw [String.data_append, quote_data]
                        rfl]
                      rw [List.cons_append, getSexp_quo,
                        ih1 y rest f' (by omega) hcy hrest (by omega)]
                      rfl
                    · simp at hc
                · rw [canonical_list_cons, if_neg hq] at hc
                  rw [need_list_cons, if_neg hq] at hneed
                  have := needList_pos (x :: rest')
                  obtain ⟨f', rfl⟩ : ∃ f', f = f' + 1 := ⟨f - 1, by omega⟩
                  rw [show (putSexp (Sexpr.list (x :: rest'))).data
                      = '(' :: putTail (x :: rest') by
                    rw [putSexp_list_cons, if_neg hq, putTail_eq]
                    simp [String.data_append]]
                  rw [List.cons_append, getSexp_lpar,
                    ih2 (x :: rest') [] rest f' (by omega) hc (by omega)]
                  rfl
      · intro l acc rest f hf hcl hneed
        cases l with
        | nil =>
            rw [needList_nil] at hneed
            obtain ⟨f', rfl⟩ : ∃ f', f = f' + 1 + 1 := ⟨f - 2, by omega⟩
            rw [show putTail [] ++ rest = ')' :: rest from rfl]
            rw [getList, getSexp_rpar]
            simp
        | cons x tl =>
            rw [canonicalList_cons, Bool.and_eq_true] at hcl
            obtain ⟨hcx, hctl⟩ := hcl
            rw [needList_cons] at hneed
            have hxr : ¬(x = Sexpr.sym (")")) := by
              intro h
              rw [h, canonical.eq_def] at hcx
              simp at hcx
            have hnx := need_pos x
            have hnt := needList_pos tl
            obtain ⟨f', rfl⟩ : ∃ f', f = f' + 1 := ⟨f - 1, by omega⟩
            cases tl with
            | nil =>
                rw [needList_nil] at hneed
                rw [show putTail [x] ++ rest
                    = (putSexp x).data ++ (')' :: rest) by
                  rw [putTail]; simp]
                rw [getList, ih1 x (')' :: rest) f' (by omega) hcx
                  (by rfl) (by omega)]
                simp only [Option.some_bind, if_neg hxr]
                rw [show (')' :: rest : List Char)
                    = putTail [] ++ rest from rfl]
                rw [ih2 [] (x :: acc) rest f' (by omega) canonicalList_nil
                  (by rw [needList_nil]; omega)]
                simp
            | cons y tl' =>
                rw [needList_cons] at hneed
                rw [show putTail (x :: y :: tl') ++ rest
                    = (putSexp x).data
                        ++ (' ' :: (putTail (y :: tl') ++ rest)) by
                  rw [putTail]; simp]
                rw [getList, ih1 x (' ' :: (putTail (y :: tl') ++ rest)) f'
                  (by omega) hcx (by rfl) (by omega)]
                simp only [Option.some_bind, if_neg hxr]
                rw [getList_white f' ' ' _ _ (by decide)]
                rw [ih2 (y :: tl') (x :: acc) rest f' (by omega) hctl
                  (by rw [needList_cons]; omega)]
                simp

/-- C8 counterexample: the claim says rendering back the parse of any
literal variable-free text gives the whitespace-normalized text.  The
text `1` (followed by the terminator the tokenizer needs) parses to the
number 1.0 — host `float` — and renders back as `1.0`, which is not a
whitespace normalization of `1`. -/
theorem C8_counterexample :
    (getSexp 10 (("1 ").data)).map (fun p => p.1) = some (Sexpr.num 1)
    ∧ putSexp (Sexpr.num 1) = ("1.0")
    ∧ (("1.0") : String) ≠ ("1")
    ∧ (("1.0") : String) ≠ ("1 ") :=
  ⟨by decide, by decide, by decide, by decide⟩

/-- C8 amended: on texts in the printer's canonical form — integral
numbers of magnitude at most `2 ^ 53` written `n.0`, quote sugar,
single-space-separated lists, and no bare symbols — the reader parses
the text back to the printed value exactly (with any terminator-headed
remainder untouched), so printing the parse reproduces the text. -/
theorem C8_roundtrip_canonical :
    (∀ (s : Sexpr) (rest : List Char) (f : Nat),
        canonical s = true → tokenEnd rest = true → need s ≤ f →
        getSexp f ((putSexp s).data ++ rest) = some (s, rest))
    ∧ (∀ s : Sexpr, canonical s = true →
        (getSexp (need s) ((putSexp s ++ (" ")).data)).map
          (fun p => putSexp p.1) = some (putSexp s)) := by
  constructor
  · intro s rest f hc hrest hneed
    exact (getSexp_putSexp_aux f).1 s rest f le_rfl hc hrest hneed
  · intro s hc
    have h := (getSexp_putSexp_aux (need s)).1 s [' '] (need s) le_rfl hc
      (by decide) le_rfl
    rw [show (putSexp s ++ (" ")).data = (putSexp s).data ++ [' '] by
      rw [String.data_append]]
    rw [h]
    rfl

/-- Witness for C8: the canonical text `(1.0 '2.0)` parses back to its
value and reprints identically. -/
theorem C8_roundtrip_canonical_witness :
    canonical (lx [nx 1, lx [sx ("quote"), nx 2]]) = true
    ∧ (getSexp (need (lx [nx 1, lx [sx ("quote"), nx 2]]))
        ((putSexp (lx [nx 1, lx [sx ("quote"), nx 2]]) ++ (" ")).data)).map
        (fun p => putSexp p.1)
      = some (putSexp (lx [nx 1, lx [sx ("quote"), nx 2]])) :=
  ⟨by decide, C8_roundtrip_canonical.2 _ (by decide)⟩

end PrimeLisp
